import Mathlib

/-
Verification of the star-detection core (src/core/detection.py) of
Astro-Spike-Python.

Modelling conventions:
* Python floats are idealized as exact arithmetic.  All computations of the
  detector that only use field operations and comparisons (luminance,
  thresholds, flood-fill accumulation, color weights, merge ratios) are
  modelled in ℚ; quantities produced by `math.sqrt`, `math.pi`, `math.cos`,
  `math.sin` (star radius, eccentricity axis test, merge distance, halo
  sampling angles) live in ℝ.
* The image buffer is a total function from (row, column, channel) to a
  rational channel value, together with its height, width and channel count,
  mirroring a numpy array of shape (H, W, C).
* numpy boolean mask `checked` is a total function ℤ → ℤ → Bool (row, col).
* Python `list` used as a stack (append/pop at the end) is a Lean `List`
  whose head is the top of the stack, so a sequence of appends pushes the
  items in order and the last appended item is popped first.
* The `while` loop of the flood fill is modelled with a fuel parameter.
  The fuel `5 * (width * height) + 1` dominates the number of iterations of
  the real loop: every iteration pops one stack entry, and an iteration that
  claims a pixel decreases the number of unclaimed in-bounds pixels by one
  while pushing at most four entries, so the measure
  (5 * unclaimed-in-bounds-pixels + stack-length) strictly decreases.
* Python `int()` truncates toward zero; `round()` is modelled by Mathlib's
  `round` (the two differ only on exact .5 ties, which the idealized real
  inputs of the halo sampler do not, in general, produce).
-/

namespace AstroSpike

/-- Color record of src/core/types.py: three float channel values. -/
structure Color where
  r : ℚ
  g : ℚ
  b : ℚ

/-- Star record of src/core/types.py.  The radius is produced by
`math.sqrt`, hence real; the other fields are produced by field
arithmetic only and stay rational in the idealization. -/
structure Star where
  x : ℚ
  y : ℚ
  brightness : ℚ
  radius : ℝ
  color : Color

/-- An image buffer of shape (height, width, channels): `data y x c` is the
value of channel `c` of the pixel in row `y`, column `x`. -/
structure Image where
  height : ℕ
  width : ℕ
  channels : ℕ
  data : ℕ → ℕ → ℕ → ℚ

/-- Python `int(q)`: truncation toward zero. -/
def python_int (q : ℚ) : ℤ :=
  if 0 ≤ q then Int.floor q else Int.ceil q

/-- map_threshold_to_internal (detection.py lines 6-13):
`140 + (ui_threshold - 1) * (240 - 140) / (100 - 1)`. -/
def map_threshold_to_internal (ui_threshold : ℤ) : ℚ :=
  140 + ((ui_threshold : ℚ) - 1) * (240 - 140) / (100 - 1)

/-- Rec.709 luminance of the pixel in row `y`, column `x`
(detection.py lines 64-69): `0.2126*r + 0.7152*g + 0.0722*b`. -/
def lum_at (img : Image) (y x : ℕ) : ℚ :=
  0.2126 * img.data y x 0 + 0.7152 * img.data y x 1 + 0.0722 * img.data y x 2

/-- Luminance lookup at integer coordinates (used by the flood fill, whose
stack holds `int` coordinates; it only reads in-bounds coordinates). -/
def lum_z (img : Image) (y x : ℤ) : ℚ :=
  lum_at img y.toNat x.toNat

/-! One candidate-to-peak hill climb, find_local_peak (detection.py lines
15-52), split into the window, the window maximum, and the driving loop.
Each round inspects the 3×3 neighborhood clipped to the image, moves to
the first row-major maximum if it strictly improves on the current cell
and stops otherwise; the fuel is the `range(20)` iteration cap. -/

/-- The clipped 3×3 window around the current cell, in row-major order:
rows `max(0, curr_y - 1)` up to (excluding) `min(height, curr_y + 2)`, and
likewise for columns (`curr_y - 1` is ℕ subtraction, which is the
`max(0, ...)` clipping).  Cells are (x, y) pairs. -/
def peak_window (img : Image) (curr_x curr_y : ℕ) : List (ℕ × ℕ) :=
  (List.range (min img.height (curr_y + 2) - (curr_y - 1))).flatMap fun dy =>
    (List.range (min img.width (curr_x + 2) - (curr_x - 1))).map fun dx =>
      (curr_x - 1 + dx, curr_y - 1 + dy)

/-- `np.max` / `np.argmax` over the window (both return the first maximum in
row-major order), folded against the current cell: the first window cell
whose luminance strictly exceeds everything before it and the current
luminance.  The result improves on `curr_lum` exactly when the window
maximum does. -/
def peak_best (img : Image) (curr_x curr_y : ℕ) (curr_lum : ℚ) : ℕ × ℕ × ℚ :=
  (peak_window img curr_x curr_y).foldl
    (fun b c => if b.2.2 < lum_at img c.2 c.1 then (c.1, c.2, lum_at img c.2 c.1) else b)
    (curr_x, curr_y, curr_lum)

/-- One round of the hill climb: move to the window maximum when it
strictly improves on the current cell, stay put otherwise (`changed`
false; staying is the loop's `break`, and further rounds then change
nothing). -/
def peak_step (img : Image) (st : ℕ × ℕ × ℚ) : ℕ × ℕ × ℚ :=
  if st.2.2 < (peak_best img st.1 st.2.1 st.2.2).2.2 then
    peak_best img st.1 st.2.1 st.2.2
  else st

def find_local_peak (img : Image) (fuel : ℕ) (st : ℕ × ℕ × ℚ) : ℕ × ℕ × ℚ :=
  (peak_step img)^[fuel] st

/-- Insert-or-update into the peak table (detection.py line 87:
`unique_peaks[(px, py)] = plum`).  A Python dict keeps the insertion
position of an existing key and appends a new key at the end. -/
def upsert_peak (l : List ((ℕ × ℕ) × ℚ)) (k : ℕ × ℕ) (v : ℚ) : List ((ℕ × ℕ) × ℚ) :=
  if l.any fun e => decide (e.1 = k) then
    l.map fun e => if e.1 = k then (k, v) else e
  else l ++ [(k, v)]

/-- Stable insertion into a list sorted descending by `key`: the new element
goes before the first element whose key is not larger.  Used to model
Python's stable `sorted(..., reverse=True)` / `list.sort(reverse=True)`. -/
def insert_desc_by {α : Type} {β : Type} [LinearOrder β] (key : α → β) (x : α) :
    List α → List α
  | [] => [x]
  | y :: ys => if key y ≤ key x then x :: y :: ys else y :: insert_desc_by key x ys

/-- Stable descending sort by `key` (Python's sorted/list.sort with
`reverse=True` is stable; a stable descending sort's output is uniquely
determined, so insertion sort is a faithful model). -/
def sort_desc_by {α : Type} {β : Type} [LinearOrder β] (key : α → β) (l : List α) :
    List α :=
  l.foldr (insert_desc_by key) []

/-- The mutable state of the flood-fill loop, flood_fill_star
(detection.py lines 155-186): accumulators, bounding box, coordinate
lists, valley minimum, the explicit stack and the shared claim mask. -/
structure FillState where
  sum_x : ℚ
  sum_y : ℚ
  sum_lum : ℚ
  sum_r : ℚ
  sum_g : ℚ
  sum_b : ℚ
  sum_color_weight : ℚ
  pixel_count : ℕ
  min_x : ℤ
  max_x : ℤ
  min_y : ℤ
  max_y : ℤ
  pixel_coords_x : List ℤ
  pixel_coords_y : List ℤ
  path_min_lum : ℚ
  stack : List (ℤ × ℤ)
  checked : ℤ → ℤ → Bool

/-- Setting one entry of the claim mask (`checked[cy, cx] = True`). -/
def mask_set (m : ℤ → ℤ → Bool) (y x : ℤ) : ℤ → ℤ → Bool :=
  fun y0 x0 => if y0 = y ∧ x0 = x then true else m y0 x0

/-- One iteration of `while stack and pixel_count < max_pixels` of
flood_fill_star (detection.py lines 188-266); the identity once the while
guard fails (empty stack or count at the cap).  One iteration pops the
top of the stack, skips out-of-bounds, already claimed, below-threshold
(`l > threshold` fails) and below-ratio (`max_lum > 0 and
l < max_lum * 0.2`) pixels, and otherwise claims the pixel: sets the
mask, updates the path minimum, the bounding box, the coordinate lists,
the luminance-weighted position sums and the saturation-boosted color
sums, and pushes the 4-neighbors that are in bounds and do not climb
above `path_min_lum + max(10, path_min_lum*0.15)`. -/
def flood_fill_step (img : Image) (threshold max_lum : ℚ) (max_pixels : ℤ)
    (s : FillState) : FillState :=
  match s.stack with
  | [] => s
  | (cx, cy) :: rest =>
    if (s.pixel_count : ℤ) < max_pixels then
      if cx < 0 ∨ (img.width : ℤ) ≤ cx ∨ cy < 0 ∨ (img.height : ℤ) ≤ cy then
        {s with stack := rest}
      else if s.checked cy cx then
        {s with stack := rest}
      else
        if threshold < lum_z img cy cx then
          if 0 < max_lum ∧ lum_z img cy cx < max_lum * 0.2 then
            {s with stack := rest}
          else
            let l := lum_z img cy cx
            let path_min := if l < s.path_min_lum then l else s.path_min_lum
            let pr := img.data cy.toNat cx.toNat 0
            let pg := img.data cy.toNat cx.toNat 1
            let pb := img.data cy.toNat cx.toNat 2
            let max_rgb := max pr (max pg pb)
            let min_rgb := min pr (min pg pb)
            let saturation := if 0 < max_rgb then (max_rgb - min_rgb) / 255 else 0
            let color_weight :=
              if 245 < pr ∧ 245 < pg ∧ 245 < pb then 0.01
              else l / 255 + saturation * 2
            let neighbors : List (ℤ × ℤ) :=
              [(cx + 1, cy), (cx - 1, cy), (cx, cy + 1), (cx, cy - 1)]
            let new_stack := neighbors.foldl
              (fun st n =>
                if 0 ≤ n.1 ∧ n.1 < (img.width : ℤ) ∧ 0 ≤ n.2 ∧ n.2 < (img.height : ℤ) then
                  let nl := lum_z img n.2 n.1
                  let tol := max 10 (path_min * 0.15)
                  if path_min + tol < nl then st else n :: st
                else st)
              rest
            { sum_x := s.sum_x + (cx : ℚ) * l
              sum_y := s.sum_y + (cy : ℚ) * l
              sum_lum := s.sum_lum + l
              sum_r := s.sum_r + pr * color_weight
              sum_g := s.sum_g + pg * color_weight
              sum_b := s.sum_b + pb * color_weight
              sum_color_weight := s.sum_color_weight + color_weight
              pixel_count := s.pixel_count + 1
              min_x := min s.min_x cx
              max_x := max s.max_x cx
              min_y := min s.min_y cy
              max_y := max s.max_y cy
              pixel_coords_x := s.pixel_coords_x ++ [cx]
              pixel_coords_y := s.pixel_coords_y ++ [cy]
              path_min_lum := path_min
              stack := new_stack
              checked := mask_set s.checked cy cx }
        else
          {s with stack := rest}
    else s

/-- The while loop of flood_fill_star: the loop step iterated fuel-many
times.  Once the while guard fails, the step is the identity, so the
result is the loop's exit state for any sufficient fuel. -/
def flood_fill_loop (img : Image) (threshold max_lum : ℚ) (max_pixels : ℤ)
    (fuel : ℕ) (s : FillState) : FillState :=
  (flood_fill_step img threshold max_lum max_pixels)^[fuel] s

/-- The whole flood-fill traversal of one invocation: the initial state of
flood_fill_star (detection.py lines 155-186: zero accumulators, bounding
box at the start pixel, `max_lum` and `path_min_lum` at the start pixel's
luminance, the start pixel on the stack) run through the loop.
`max_pixels = int(1000 + (max_lum / 255.0) * 50000)` (line 179). -/
def flood_fill_run (img : Image) (threshold : ℚ) (start_x start_y : ℕ)
    (checked : ℤ → ℤ → Bool) : FillState :=
  let max_lum := lum_at img start_y start_x
  let max_pixels := python_int (1000 + max_lum / 255 * 50000)
  flood_fill_loop img threshold max_lum max_pixels (5 * (img.width * img.height) + 1)
    { sum_x := 0, sum_y := 0, sum_lum := 0, sum_r := 0, sum_g := 0, sum_b := 0
      sum_color_weight := 0, pixel_count := 0
      min_x := (start_x : ℤ), max_x := (start_x : ℤ)
      min_y := (start_y : ℤ), max_y := (start_y : ℤ)
      pixel_coords_x := [], pixel_coords_y := []
      path_min_lum := max_lum
      stack := [((start_x : ℤ), (start_y : ℤ))]
      checked := checked }

/-- The eccentricity rejection test of flood_fill_star (detection.py lines
271-309): run only when at least 10 pixels were accepted; unweighted
centroid and second-order central moments of the coordinate lists
(`np.mean` divides by the length of the array), analytic 2×2 eigenvalues;
the region is rejected exactly when the discriminant is non-negative, the
moment trace is positive, the smaller eigenvalue is positive and
`sqrt(lambda1 / lambda2) > 1.5`. -/
def shape_eccentric_reject (s : FillState) : Prop :=
  10 ≤ s.pixel_count ∧
  (let n : ℚ := s.pixel_coords_x.length
   let cx := (s.pixel_coords_x.map fun v => (v : ℚ)).sum / n
   let cy := (s.pixel_coords_y.map fun v => (v : ℚ)).sum / n
   let mu20 := ((s.pixel_coords_x.map fun v => ((v : ℚ) - cx) * ((v : ℚ) - cx)).sum) / n
   let mu02 := ((s.pixel_coords_y.map fun v => ((v : ℚ) - cy) * ((v : ℚ) - cy)).sum) / n
   let mu11 := (((s.pixel_coords_x.zip s.pixel_coords_y).map
     fun p => ((p.1 : ℚ) - cx) * ((p.2 : ℚ) - cy)).sum) / n
   let trace := mu20 + mu02
   let det := mu20 * mu02 - mu11 * mu11
   let discriminant := trace * trace - 4 * det
   0 ≤ discriminant ∧ 0 < trace ∧
   (let sqrt_disc : ℝ := Real.sqrt (discriminant : ℝ)
    let lambda1 := ((trace : ℝ) + sqrt_disc) / 2
    let lambda2 := ((trace : ℝ) - sqrt_disc) / 2
    0 < lambda2 ∧ 1.5 < Real.sqrt (lambda1 / lambda2)))

open Classical in
/-- Finalization of a grown region into a `Star`, flood_fill_star
(detection.py lines 268-341): no star when zero pixels were accepted or a
shape check rejects; otherwise `radius = sqrt(pixel_count / pi)`,
`brightness = max_lum / 255`, the luminance-weighted centroid, and the
weighted average color (opaque white when the total weight is zero). -/
noncomputable def finalize_region (max_lum : ℚ) (s : FillState) : Option Star :=
  if s.pixel_count = 0 then none
  else if shape_eccentric_reject s then none
  else if 5 < ((max (s.max_x - s.min_x + 1) (s.max_y - s.min_y + 1) : ℤ) : ℚ) /
      ((max (min (s.max_x - s.min_x + 1) (s.max_y - s.min_y + 1)) 1 : ℤ) : ℚ) then
    none
  else if (s.pixel_count : ℚ) /
      ((max ((s.max_x - s.min_x + 1) * (s.max_y - s.min_y + 1)) 1 : ℤ) : ℚ) < 0.10 ∧
      50 < s.pixel_count then
    none
  else
    some ⟨s.sum_x / s.sum_lum, s.sum_y / s.sum_lum, max_lum / 255,
          Real.sqrt ((s.pixel_count : ℝ) / Real.pi),
          if 0 < s.sum_color_weight then
            ⟨s.sum_r / s.sum_color_weight, s.sum_g / s.sum_color_weight,
             s.sum_b / s.sum_color_weight⟩
          else ⟨255, 255, 255⟩⟩

/-- flood_fill_star (detection.py lines 152-341): run the traversal from
the start pixel, return the optional star together with the mask as left
by the traversal (the Python mask is mutated in place; rejected regions
keep their pixels claimed). -/
noncomputable def flood_fill_star (img : Image) (start_x start_y : ℕ) (threshold : ℚ)
    (checked : ℤ → ℤ → Bool) : Option Star × (ℤ → ℤ → Bool) :=
  let s := flood_fill_run img threshold start_x start_y checked
  (finalize_region (lum_at img start_y start_x) s, s.checked)

/-- The per-peak loop of detect_stars (detection.py lines 96-102): process
the sorted peaks in order, skipping peaks whose pixel is already claimed,
otherwise flood-filling from the peak with the shared mask and collecting
the accepted stars in order. -/
noncomputable def process_peaks (img : Image) (threshold : ℚ) :
    List ((ℕ × ℕ) × ℚ) → (ℤ → ℤ → Bool) → List Star × (ℤ → ℤ → Bool)
  | [], checked => ([], checked)
  | peak :: rest, checked =>
    if checked (peak.1.2 : ℤ) (peak.1.1 : ℤ) then
      process_peaks img threshold rest checked
    else
      ((flood_fill_star img peak.1.1 peak.1.2 threshold checked).1.elim
        (process_peaks img threshold rest
          (flood_fill_star img peak.1.1 peak.1.2 threshold checked).2).1
        (fun st => st :: (process_peaks img threshold rest
          (flood_fill_star img peak.1.1 peak.1.2 threshold checked).2).1),
       (process_peaks img threshold rest
         (flood_fill_star img peak.1.1 peak.1.2 threshold checked).2).2)

/-- Ghost companion of `process_peaks`: the pixels accepted (claimed and
accumulated) by each flood-fill invocation of the pass, in order, as
(x, y) pairs.  It threads the mask exactly as `process_peaks` does. -/
def process_accepted (img : Image) (threshold : ℚ) :
    List ((ℕ × ℕ) × ℚ) → (ℤ → ℤ → Bool) → List (ℤ × ℤ)
  | [], _ => []
  | peak :: rest, checked =>
    if checked (peak.1.2 : ℤ) (peak.1.1 : ℤ) then
      process_accepted img threshold rest checked
    else
      ((flood_fill_run img threshold peak.1.1 peak.1.2 checked).pixel_coords_x.zip
        (flood_fill_run img threshold peak.1.1 peak.1.2 checked).pixel_coords_y) ++
      process_accepted img threshold rest
        (flood_fill_run img threshold peak.1.1 peak.1.2 checked).checked

/-- Center distance used by the merge phase (detection.py lines 112-114):
`sqrt(dx*dx + dy*dy)`. -/
noncomputable def merge_dist (a b : Star) : ℝ :=
  Real.sqrt (((a.x - b.x : ℚ) : ℝ) * ((a.x - b.x : ℚ) : ℝ) +
             ((a.y - b.y : ℚ) : ℝ) * ((a.y - b.y : ℚ) : ℝ))

open Classical in
/-- The merge decision of detect_stars (detection.py lines 116-135) for a
candidate `star` against an already kept `existing` star:
`brightness_ratio = star.brightness / max(existing.brightness, 0.01)`;
if the candidate is much dimmer (< 0.4) or tiny (radius < 5), merge when
`dist < (existing.radius + star.radius) * 1.2`; otherwise merge when
`dist < (existing.radius + star.radius) * 0.25`. -/
noncomputable def should_merge (star existing : Star) : Prop :=
  if star.brightness / max existing.brightness 0.01 < 0.4 ∨ star.radius < 5 then
    merge_dist star existing < (existing.radius + star.radius) * 1.2
  else
    merge_dist star existing < (existing.radius + star.radius) * 0.25

open Classical in
/-- The greedy merge loop of detect_stars (detection.py lines 109-142):
each candidate (largest radius first) is discarded when some already kept
star triggers the merge decision, and appended to the kept list
otherwise. -/
noncomputable def merge_loop : List Star → List Star → List Star
  | [], acc => acc
  | star :: rest, acc =>
    if ∃ e ∈ acc, should_merge star e then merge_loop rest acc
    else merge_loop rest (acc ++ [star])

/-- The loop body of sample_halo_color (detection.py lines 353-364) for
sample index `i`: `angle = (i / samples) * pi * 2` with `samples = 24`,
the sample radius `(inner_radius + outer_radius) / 2` where
`inner_radius = star.radius * 1.5` and `outer_radius = star.radius * 3.0`,
integer sample coordinates via `round`, and, when in bounds, the three
channel sums and the sample count are increased. -/
noncomputable def halo_step (img : Image) (star : Star) (a : ℚ × ℚ × ℚ × ℕ) (i : ℕ) :
    ℚ × ℚ × ℚ × ℕ :=
  let inner_radius : ℝ := star.radius * 1.5
  let outer_radius : ℝ := star.radius * 3.0
  let angle : ℝ := ((i : ℝ) / 24) * Real.pi * 2
  let radius := (inner_radius + outer_radius) / 2
  let x : ℤ := round ((star.x : ℝ) + Real.cos angle * radius)
  let y : ℤ := round ((star.y : ℝ) + Real.sin angle * radius)
  if 0 ≤ x ∧ x < (img.width : ℤ) ∧ 0 ≤ y ∧ y < (img.height : ℤ) then
    (a.1 + img.data y.toNat x.toNat 0, a.2.1 + img.data y.toNat x.toNat 1,
     a.2.2.1 + img.data y.toNat x.toNat 2, a.2.2.2 + 1)
  else a

/-- sample_halo_color (detection.py lines 343-373): 24 samples at equally
spaced angles on the ring of radius `(inner + outer) / 2` where
`inner = radius*1.5`, `outer = radius*3.0`; in-bounds samples are summed
per channel and counted; zero valid samples yield opaque white, otherwise
the per-channel mean. -/
noncomputable def sample_halo_color (img : Image) (star : Star) : Color :=
  let acc := (List.range 24).foldl (halo_step img star) (0, 0, 0, 0)
  if acc.2.2.2 = 0 then ⟨255, 255, 255⟩
  else ⟨acc.1 / (acc.2.2.2 : ℚ), acc.2.1 / (acc.2.2.2 : ℚ), acc.2.2.1 / (acc.2.2.2 : ℚ)⟩

/-- Error message of the invalid-input failure of detect_stars: indexing a
buffer with fewer than three channels raises in the numpy channel reads
(detection.py lines 66-68). -/
def invalid_image_msg : String := "image buffer lacks required channels"

/-- detect_stars (detection.py lines 54-150): luminance field, stride-4
candidate scan (row-major, `np.where` order), hill climb to peaks with
deduplication into the peak table, peaks sorted by luminance descending
(stable), flood fill per unclaimed peak with the shared claim mask,
radius-descending stable sort, greedy merge, halo recoloring of every
kept star, and the final stable sort by `brightness * radius` descending.
An image whose buffer has fewer than three channels fails (numpy raises
on the channel reads of lines 66-68); any other image, including one of
zero width or height, produces a star list. -/
noncomputable def detect_stars (img : Image) (threshold : ℤ) : Except String (List Star) :=
  if img.channels < 3 then Except.error invalid_image_msg
  else
    let internal_threshold := map_threshold_to_internal threshold
    let stride := 4
    let candidates : List (ℕ × ℕ) :=
      (List.range ((img.height + (stride - 1)) / stride)).flatMap fun i =>
        ((List.range ((img.width + (stride - 1)) / stride)).filter fun j =>
          decide (internal_threshold < lum_at img (stride * i) (stride * j))).map
          fun j => (stride * j, stride * i)
    let unique_peaks := candidates.foldl
      (fun acc c =>
        let p := find_local_peak img 20 (c.1, c.2, lum_at img c.2 c.1)
        if internal_threshold < p.2.2 then upsert_peak acc (p.1, p.2.1) p.2.2 else acc)
      []
    let sorted_peaks := sort_desc_by (fun e => e.2) unique_peaks
    let pass := process_peaks img internal_threshold sorted_peaks fun _ _ => false
    let stars_sorted := sort_desc_by (fun st : Star => st.radius) pass.1
    let merged_stars := merge_loop stars_sorted []
    let with_halo := merged_stars.map fun st => {st with color := sample_halo_color img st}
    Except.ok (sort_desc_by (fun st : Star => (st.brightness : ℝ) * st.radius) with_halo)

/-! Spec-side characterization of the halo sampler (for the refinement claim
about §4.8 of the spec). -/

/-- Modelled from the spec's words for §4.8: the i-th of the 24 halo sample
points, at angle `(i/24)·2π` on the single circle of radius
`(radius·1.5 + radius·3.0) / 2` around the star's center. -/
noncomputable def halo_sample_point (star : Star) (i : ℕ) : ℤ × ℤ :=
  let angle : ℝ := ((i : ℝ) / 24) * Real.pi * 2
  let radius : ℝ := (star.radius * 1.5 + star.radius * 3.0) / 2
  (round ((star.x : ℝ) + Real.cos angle * radius),
   round ((star.y : ℝ) + Real.sin angle * radius))

/-- A sample coordinate is inside the image. -/
def in_bounds (img : Image) (p : ℤ × ℤ) : Prop :=
  0 ≤ p.1 ∧ p.1 < (img.width : ℤ) ∧ 0 ≤ p.2 ∧ p.2 < (img.height : ℤ)

instance (img : Image) (p : ℤ × ℤ) : Decidable (in_bounds img p) := by
  unfold in_bounds; infer_instance

/-- The in-bounds halo sample points of an index list, in order. -/
noncomputable def halo_pts (img : Image) (star : Star) (l : List ℕ) : List (ℤ × ℤ) :=
  (l.map (halo_sample_point star)).filter fun p => decide (in_bounds img p)

/-- Modelled from the spec's words for §4.8: exactly the 24 sample points
are considered, out-of-bounds samples are skipped, the color is the
per-channel arithmetic mean of the in-bounds samples, and opaque white is
returned when every sample is out of bounds. -/
noncomputable def sample_halo_color_spec (img : Image) (star : Star) : Color :=
  let inb := halo_pts img star (List.range 24)
  if inb = [] then ⟨255, 255, 255⟩
  else
    ⟨(inb.map fun p => img.data p.2.toNat p.1.toNat 0).sum / (inb.length : ℚ),
     (inb.map fun p => img.data p.2.toNat p.1.toNat 1).sum / (inb.length : ℚ),
     (inb.map fun p => img.data p.2.toNat p.1.toNat 2).sum / (inb.length : ℚ)⟩

/-! Concrete inputs used by witnesses and counterexamples. -/

/-- A 0×0 three-channel image. -/
def img_empty : Image := ⟨0, 0, 3, fun _ _ _ => 0⟩

/-- A 4×4 buffer with only two channels per pixel. -/
def img_two_channels : Image := ⟨4, 4, 2, fun _ _ _ => 0⟩

/-- A 0-height, 5-wide three-channel image. -/
def img_zero_height : Image := ⟨0, 5, 3, fun _ _ _ => 0⟩

/-! Generic facts about the stable descending insertion sort. -/

theorem insert_desc_by_perm {α β : Type} [LinearOrder β] (key : α → β) (x : α)
    (l : List α) : (insert_desc_by key x l).Perm (x :: l) := by
  induction l with
  | nil => exact List.Perm.refl _
  | cons y ys ih =>
    unfold insert_desc_by
    by_cases h : key y ≤ key x
    · rw [if_pos h]
    · rw [if_neg h]
      exact (ih.cons y).trans (List.Perm.swap x y ys)

theorem sort_desc_by_perm {α β : Type} [LinearOrder β] (key : α → β) (l : List α) :
    (sort_desc_by key l).Perm l := by
  induction l with
  | nil => exact List.Perm.refl _
  | cons x xs ih =>
    exact (insert_desc_by_perm key x (sort_desc_by key xs)).trans (ih.cons x)

theorem mem_sort_desc_by {α β : Type} [LinearOrder β] {key : α → β} {l : List α}
    {a : α} (h : a ∈ sort_desc_by key l) : a ∈ l :=
  (sort_desc_by_perm key l).mem_iff.mp h

/-! Evaluation of degenerate inputs of detect_stars. -/

theorem flatMap_nil_of_forall {α β : Type} (l : List α) (f : α → List β)
    (h : ∀ a ∈ l, f a = []) : l.flatMap f = [] := by
  induction l with
  | nil => rfl
  | cons x xs ih =>
    simp only [List.flatMap_cons, h x (by simp), List.nil_append]
    exact ih fun a ha => h a (by simp [ha])

theorem detect_stars_degenerate (img : Image) (t : ℤ) (h3 : ¬ img.channels < 3)
    (hz : img.height = 0 ∨ img.width = 0) : detect_stars img t = Except.ok [] := by
  unfold detect_stars
  rw [if_neg h3]
  have hc : (List.range ((img.height + (4 - 1)) / 4)).flatMap
      (fun i => ((List.range ((img.width + (4 - 1)) / 4)).filter fun j =>
        decide (map_threshold_to_internal t < lum_at img (4 * i) (4 * j))).map
        fun j => (4 * j, 4 * i)) = ([] : List (ℕ × ℕ)) := by
    rcases hz with h0 | h0
    · rw [h0]; rfl
    · refine flatMap_nil_of_forall _ _ fun a _ => ?_
      rw [h0]; rfl
  simp only [hc, List.foldl_nil]
  rfl

theorem detect_stars_img_empty : detect_stars img_empty 50 = Except.ok [] :=
  detect_stars_degenerate img_empty 50 (by decide) (Or.inl rfl)

/-- Claim C3 amended: the detector fails with the invalid-input error exactly when
the buffer has fewer than three channels; a zero-width or zero-height image
with at least three channels yields the empty star list without error. -/
theorem claim3_input_validation (img : Image) (t : ℤ) :
    (img.channels < 3 → detect_stars img t = Except.error invalid_image_msg) ∧
    (3 ≤ img.channels → img.height = 0 ∨ img.width = 0 →
      detect_stars img t = Except.ok []) := by
  constructor
  · intro h
    unfold detect_stars
    rw [if_pos h]
  · intro h3 hz
    exact detect_stars_degenerate img t (by omega) hz

/-- Claim C3 witness: a concrete two-channel buffer makes detect_stars fail. -/
theorem claim3_input_validation_witness :
    detect_stars img_two_channels 50 = Except.error invalid_image_msg :=
  (claim3_input_validation img_two_channels 50).1 (by decide)

/-- Claim C3 counterexample: the claim "detect_stars fails whenever the image has
zero width or zero height" is false: a concrete 0×5 three-channel image
yields the empty star list, not an error. -/
theorem claim3_counterexample :
    detect_stars img_zero_height 1 = Except.ok [] ∧ img_zero_height.height = 0 ∧
      3 ≤ img_zero_height.channels :=
  ⟨detect_stars_degenerate img_zero_height 1 (by decide) (Or.inl rfl), rfl, by decide⟩

/-- Claim C7: the threshold map equals `140 + (s-1)·100/99`, lies in [140, 240] on
the sensitivity range [1, 100], and is strictly monotone, so increasing the
sensitivity integer never decreases the internal luminance cutoff. -/
theorem claim7_threshold_map (s1 s2 : ℤ) (h1 : 1 ≤ s1) (h1' : s1 ≤ 100)
    (h2 : 1 ≤ s2) (h2' : s2 ≤ 100) :
    map_threshold_to_internal s1 = 140 + ((s1 : ℚ) - 1) * 100 / 99 ∧
    140 ≤ map_threshold_to_internal s1 ∧ map_threshold_to_internal s1 ≤ 240 ∧
    (s1 < s2 → map_threshold_to_internal s1 < map_threshold_to_internal s2) := by
  have e : ∀ s : ℤ, map_threshold_to_internal s = 140 + ((s : ℚ) - 1) * (100 / 99) := by
    intro s; unfold map_threshold_to_internal; ring
  have c1 : (1 : ℚ) ≤ (s1 : ℚ) := by exact_mod_cast h1
  have c2 : ((s1 : ℚ)) ≤ 100 := by exact_mod_cast h1'
  refine ⟨by rw [e]; ring, ?_, ?_, ?_⟩
  · rw [e]
    have := mul_nonneg (show (0:ℚ) ≤ (s1:ℚ) - 1 by linarith)
      (show (0:ℚ) ≤ 100 / 99 by norm_num)
    linarith
  · rw [e]
    have h99 : ((s1:ℚ) - 1) * (100 / 99) ≤ 99 * (100 / 99) :=
      mul_le_mul_of_nonneg_right (by linarith) (by norm_num)
    have : (99 : ℚ) * (100 / 99) = 100 := by norm_num
    linarith
  · intro hlt
    have hq : (s1 : ℚ) < (s2 : ℚ) := by exact_mod_cast hlt
    rw [e, e]
    have := mul_lt_mul_of_pos_right (show (s1:ℚ) - 1 < (s2:ℚ) - 1 by linarith)
      (show (0:ℚ) < 100 / 99 by norm_num)
    linarith

/-- Claim C7 witness at sensitivities 3 and 7. -/
theorem claim7_threshold_map_witness :
    map_threshold_to_internal 3 = 140 + ((3 : ℤ) - 1 : ℚ) * 100 / 99 ∧
    140 ≤ map_threshold_to_internal 3 ∧ map_threshold_to_internal 3 ≤ 240 ∧
    ((3 : ℤ) < 7 → map_threshold_to_internal 3 < map_threshold_to_internal 7) :=
  claim7_threshold_map 3 7 (by norm_num) (by norm_num) (by norm_num) (by norm_num)

/-- Claim C9: detect_stars is a pure function of the image buffer and the
sensitivity value: identical inputs yield identical output sequences. -/
theorem claim9_determinism (img1 img2 : Image) (t1 t2 : ℤ) (himg : img1 = img2)
    (ht : t1 = t2) : detect_stars img1 t1 = detect_stars img2 t2 := by
  rw [himg, ht]

/-- Claim C9 witness at a concrete image. -/
theorem claim9_determinism_witness :
    detect_stars img_empty 50 = detect_stars img_empty 50 :=
  claim9_determinism img_empty img_empty 50 50 rfl rfl

/-! C8: the halo sampler agrees with the spec-side characterization. -/

theorem halo_step_eq (img : Image) (star : Star) (a : ℚ × ℚ × ℚ × ℕ) (i : ℕ) :
    halo_step img star a i =
      if in_bounds img (halo_sample_point star i) then
        (a.1 + img.data (halo_sample_point star i).2.toNat (halo_sample_point star i).1.toNat 0,
         a.2.1 + img.data (halo_sample_point star i).2.toNat (halo_sample_point star i).1.toNat 1,
         a.2.2.1 + img.data (halo_sample_point star i).2.toNat (halo_sample_point star i).1.toNat 2,
         a.2.2.2 + 1)
      else a := by
  unfold halo_step halo_sample_point in_bounds
  norm_num

theorem halo_fold (img : Image) (star : Star) (l : List ℕ) (a : ℚ × ℚ × ℚ × ℕ) :
    l.foldl (halo_step img star) a =
      (a.1 + ((halo_pts img star l).map fun p => img.data p.2.toNat p.1.toNat 0).sum,
       a.2.1 + ((halo_pts img star l).map fun p => img.data p.2.toNat p.1.toNat 1).sum,
       a.2.2.1 + ((halo_pts img star l).map fun p => img.data p.2.toNat p.1.toNat 2).sum,
       a.2.2.2 + (halo_pts img star l).length) := by
  induction l generalizing a with
  | nil => simp [halo_pts]
  | cons i rest ih =>
    rw [List.foldl_cons, ih, halo_step_eq]
    by_cases h : in_bounds img (halo_sample_point star i)
    · rw [if_pos h]
      have hp : halo_pts img star (i :: rest) =
          halo_sample_point star i :: halo_pts img star rest := by
        unfold halo_pts
        rw [List.map_cons, List.filter_cons_of_pos (by simpa using h)]
      rw [hp]
      simp only [List.map_cons, List.sum_cons, List.length_cons]
      refine Prod.ext ?_ (Prod.ext ?_ (Prod.ext ?_ ?_)) <;> simp <;> ring
    · rw [if_neg h]
      have hp : halo_pts img star (i :: rest) = halo_pts img star rest := by
        unfold halo_pts
        rw [List.map_cons, List.filter_cons_of_neg (by simpa using h)]
      rw [hp]

/-- Claim C8: sample_halo_color considers exactly the 24 equally spaced sample
points on the single midpoint-radius circle, skips out-of-bounds samples
without error, averages the in-bounds samples per channel, and returns
opaque white when all 24 samples are out of bounds. -/
theorem claim8_halo_sampling (img : Image) (star : Star) :
    sample_halo_color img star = sample_halo_color_spec img star := by
  unfold sample_halo_color sample_halo_color_spec
  rw [halo_fold]
  simp only [zero_add]
  by_cases h : halo_pts img star (List.range 24) = []
  · rw [if_pos (by rw [h]; rfl), if_pos h]
  · rw [if_neg (by simpa [List.length_eq_zero] using h), if_neg h]

/-! C1: no two output stars satisfy the conservative merge predicate. -/

/-- The conservative merge predicate of the claim: both brightness ratios at
least 0.4, both radii at least 5, and center distance below
`(r1 + r2) * 0.25`. -/
noncomputable def conservative_merge_pred (a b : Star) : Prop :=
  0.4 ≤ a.brightness / max b.brightness 0.01 ∧
  0.4 ≤ b.brightness / max a.brightness 0.01 ∧
  (5 : ℝ) ≤ a.radius ∧ (5 : ℝ) ≤ b.radius ∧
  merge_dist a b < (a.radius + b.radius) * 0.25

theorem merge_dist_comm (a b : Star) : merge_dist a b = merge_dist b a := by
  unfold merge_dist
  congr 1
  push_cast
  ring

theorem conservative_merge_pred_comm (a b : Star)
    (h : conservative_merge_pred a b) : conservative_merge_pred b a := by
  obtain ⟨h1, h2, h3, h4, h5⟩ := h
  exact ⟨h2, h1, h4, h3, by rwa [merge_dist_comm, add_comm] at h5⟩

theorem not_should_merge_of_pred {star e : Star} (hcmp : conservative_merge_pred e star) :
    should_merge star e := by
  obtain ⟨h1, h2, h3, h4, h5⟩ := hcmp
  unfold should_merge
  rw [if_neg (by push_neg; exact ⟨not_lt.mp (by simpa using not_lt.mpr h2), h4⟩)]
  rwa [merge_dist_comm]

theorem merge_loop_pairwise (l acc : List Star)
    (hacc : acc.Pairwise fun a b => ¬ conservative_merge_pred a b) :
    (merge_loop l acc).Pairwise fun a b => ¬ conservative_merge_pred a b := by
  induction l generalizing acc with
  | nil => simpa [merge_loop] using hacc
  | cons star rest ih =>
    unfold merge_loop
    by_cases h : ∃ e ∈ acc, should_merge star e
    · rw [if_pos h]; exact ih acc hacc
    · rw [if_neg h]
      refine ih _ ?_
      rw [List.pairwise_append]
      refine ⟨hacc, List.pairwise_singleton _ _, ?_⟩
      intro e he star' hstar'
      rw [List.mem_singleton] at hstar'
      subst hstar'
      intro hcmp
      exact h ⟨e, he, not_should_merge_of_pred hcmp⟩

/-- Claim C1: for every image and sensitivity, no two distinct stars of the output
of detect_stars satisfy the conservative merge predicate against each other:
whenever both brightness ratios are at least 0.4 and both radii at least 5,
their center distance is not below `(r1 + r2) * 0.25`. -/
theorem claim1_merge_postcondition (img : Image) (t : ℤ) (stars : List Star)
    (hok : detect_stars img t = Except.ok stars) :
    stars.Pairwise fun a b => ¬ conservative_merge_pred a b := by
  unfold detect_stars at hok
  by_cases hch : img.channels < 3
  · rw [if_pos hch] at hok
    exact (Except.noConfusion hok)
  · rw [if_neg hch] at hok
    simp only [Except.ok.injEq] at hok
    subst hok
    have hsym : Symmetric fun a b : Star => ¬ conservative_merge_pred a b :=
      fun a b hab hcmp => hab (conservative_merge_pred_comm b a hcmp)
    refine (List.Perm.pairwise_iff (fun hab => hsym hab) (sort_desc_by_perm _ _)).mpr ?_
    rw [List.pairwise_map]
    exact merge_loop_pairwise _ [] List.Pairwise.nil

/-- Claim C1 witness at a concrete image. -/
theorem claim1_merge_postcondition_witness :
    List.Pairwise (fun a b => ¬ conservative_merge_pred a b) ([] : List Star) :=
  claim1_merge_postcondition img_empty 50 [] detect_stars_img_empty

/-! Invariants of the flood-fill loop. -/

theorem flood_fill_loop_succ (img : Image) (t ml : ℚ) (mp : ℤ) (n : ℕ) (s : FillState) :
    flood_fill_loop img t ml mp (n + 1) s =
      flood_fill_loop img t ml mp n (flood_fill_step img t ml mp s) := by
  unfold flood_fill_loop
  exact Function.iterate_succ_apply _ _ _

/-- Once a pixel is claimed (its mask entry is true), one step of the
flood-fill loop keeps it claimed and does not accept it: no entry for it is
added to the coordinate lists.  The length hypothesis records that the two
coordinate lists grow in lockstep. -/
theorem flood_fill_step_mask_mono (img : Image) (t ml : ℚ) (mp : ℤ) (x y : ℤ)
    (s : FillState) (h : s.checked y x = true)
    (hl : s.pixel_coords_x.length = s.pixel_coords_y.length)
    (hq : ∀ p ∈ s.pixel_coords_x.zip s.pixel_coords_y, p ≠ (x, y)) :
    (flood_fill_step img t ml mp s).checked y x = true ∧
    (flood_fill_step img t ml mp s).pixel_coords_x.length =
      (flood_fill_step img t ml mp s).pixel_coords_y.length ∧
    (∀ p ∈ (flood_fill_step img t ml mp s).pixel_coords_x.zip
        (flood_fill_step img t ml mp s).pixel_coords_y, p ≠ (x, y)) := by
  rw [flood_fill_step]
  split
  · exact ⟨h, hl, hq⟩
  · rename_i stk0 cx cy rest hstk
    by_cases hcnt : (s.pixel_count : ℤ) < mp
    · rw [if_pos hcnt]
      by_cases hoob : cx < 0 ∨ (img.width : ℤ) ≤ cx ∨ cy < 0 ∨ (img.height : ℤ) ≤ cy
      · rw [if_pos hoob]; exact ⟨h, hl, hq⟩
      · rw [if_neg hoob]
        by_cases hchk : s.checked cy cx
        · rw [if_pos hchk]; exact ⟨h, hl, hq⟩
        · rw [if_neg hchk]
          by_cases hthr : t < lum_z img cy cx
          · rw [if_pos hthr]
            by_cases hrat : 0 < ml ∧ lum_z img cy cx < ml * 0.2
            · rw [if_pos hrat]; exact ⟨h, hl, hq⟩
            · rw [if_neg hrat]
              have hmask : (mask_set s.checked cy cx) y x = true := by
                unfold mask_set
                by_cases hyx : y = cy ∧ x = cx
                · rw [if_pos hyx]
                · rw [if_neg hyx]; exact h
              refine ⟨hmask, by simp [hl], ?_⟩
              intro p hm
              have hm2 : p ∈ (s.pixel_coords_x ++ [cx]).zip (s.pixel_coords_y ++ [cy]) := hm
              rw [List.zip_append hl] at hm2
              rcases List.mem_append.mp hm2 with hin | hin
              · exact hq p hin
              · have hpcc : p = (cx, cy) := by simpa using hin
                subst hpcc
                rintro hpxy
                have hx : cx = x := congrArg Prod.fst hpxy
                have hy : cy = y := congrArg Prod.snd hpxy
                rw [hy, hx, h] at hchk
                exact hchk rfl
          · rw [if_neg hthr]; exact ⟨h, hl, hq⟩
    · rw [if_neg hcnt]; exact ⟨h, hl, hq⟩

/-- Once a pixel is claimed (its mask entry is true), any further run of the
flood-fill loop keeps it claimed and never accepts it: no entry for it is
ever added to the coordinate lists. -/
theorem flood_fill_loop_mask_mono (img : Image) (t ml : ℚ) (mp : ℤ) (x y : ℤ) :
    ∀ (fuel : ℕ) (s : FillState), s.checked y x = true →
      s.pixel_coords_x.length = s.pixel_coords_y.length →
      (∀ p ∈ s.pixel_coords_x.zip s.pixel_coords_y, p ≠ (x, y)) →
      ((flood_fill_loop img t ml mp fuel s).checked y x = true ∧
       (flood_fill_loop img t ml mp fuel s).pixel_coords_x.length =
         (flood_fill_loop img t ml mp fuel s).pixel_coords_y.length ∧
       (∀ p ∈ (flood_fill_loop img t ml mp fuel s).pixel_coords_x.zip
           (flood_fill_loop img t ml mp fuel s).pixel_coords_y, p ≠ (x, y))) := by
  intro fuel
  induction fuel with
  | zero => exact fun s h hl hq => ⟨h, hl, hq⟩
  | succ n ih =>
    intro s h hl hq
    rw [flood_fill_loop_succ]
    obtain ⟨a, b, c⟩ := flood_fill_step_mask_mono img t ml mp x y s h hl hq
    exact ih _ a b c

/-- Every pixel accepted by one step of the flood-fill loop was accepted
with luminance strictly above the threshold and at least `max_lum * 0.2`,
and the accepted count never exceeds the pixel cap. -/
theorem flood_fill_step_accept_inv (img : Image) (t ml : ℚ) (mp : ℤ) (ht : 0 ≤ t)
    (s : FillState)
    (hl : s.pixel_coords_x.length = s.pixel_coords_y.length)
    (hp : ∀ p ∈ s.pixel_coords_x.zip s.pixel_coords_y,
      t < lum_z img p.2 p.1 ∧ ml * 0.2 ≤ lum_z img p.2 p.1)
    (hc : (s.pixel_count : ℤ) ≤ mp) :
    (flood_fill_step img t ml mp s).pixel_coords_x.length =
      (flood_fill_step img t ml mp s).pixel_coords_y.length ∧
    (∀ p ∈ (flood_fill_step img t ml mp s).pixel_coords_x.zip
        (flood_fill_step img t ml mp s).pixel_coords_y,
      t < lum_z img p.2 p.1 ∧ ml * 0.2 ≤ lum_z img p.2 p.1) ∧
    ((flood_fill_step img t ml mp s).pixel_count : ℤ) ≤ mp := by
  rw [flood_fill_step]
  split
  · exact ⟨hl, hp, hc⟩
  · rename_i stk0 cx cy rest hstk
    by_cases hcnt : (s.pixel_count : ℤ) < mp
    · rw [if_pos hcnt]
      by_cases hoob : cx < 0 ∨ (img.width : ℤ) ≤ cx ∨ cy < 0 ∨ (img.height : ℤ) ≤ cy
      · rw [if_pos hoob]; exact ⟨hl, hp, hc⟩
      · rw [if_neg hoob]
        by_cases hchk : s.checked cy cx
        · rw [if_pos hchk]; exact ⟨hl, hp, hc⟩
        · rw [if_neg hchk]
          by_cases hthr : t < lum_z img cy cx
          · rw [if_pos hthr]
            by_cases hrat : 0 < ml ∧ lum_z img cy cx < ml * 0.2
            · rw [if_pos hrat]; exact ⟨hl, hp, hc⟩
            · rw [if_neg hrat]
              refine ⟨by simp [hl], ?_, by push_cast; omega⟩
              intro p hm
              have hm2 : p ∈ (s.pixel_coords_x ++ [cx]).zip (s.pixel_coords_y ++ [cy]) := hm
              rw [List.zip_append hl] at hm2
              rcases List.mem_append.mp hm2 with hin | hin
              · exact hp p hin
              · have hpcc : p = (cx, cy) := by simpa using hin
                subst hpcc
                refine ⟨hthr, ?_⟩
                by_cases hml : 0 < ml
                · exact le_of_not_lt fun hlt => hrat ⟨hml, hlt⟩
                · have hz : ml * 0.2 ≤ 0 := by nlinarith [le_of_not_lt hml]
                  exact le_trans hz (le_of_lt (lt_of_le_of_lt ht hthr))
          · rw [if_neg hthr]; exact ⟨hl, hp, hc⟩
    · rw [if_neg hcnt]; exact ⟨hl, hp, hc⟩

/-- Every pixel accepted by the flood-fill loop was accepted with luminance
strictly above the threshold and at least `max_lum * 0.2`, and the accepted
count never exceeds the pixel cap. -/
theorem flood_fill_loop_accept_inv (img : Image) (t ml : ℚ) (mp : ℤ) (ht : 0 ≤ t) :
    ∀ (fuel : ℕ) (s : FillState),
      s.pixel_coords_x.length = s.pixel_coords_y.length →
      (∀ p ∈ s.pixel_coords_x.zip s.pixel_coords_y,
        t < lum_z img p.2 p.1 ∧ ml * 0.2 ≤ lum_z img p.2 p.1) →
      (s.pixel_count : ℤ) ≤ mp →
      ((flood_fill_loop img t ml mp fuel s).pixel_coords_x.length =
         (flood_fill_loop img t ml mp fuel s).pixel_coords_y.length ∧
       (∀ p ∈ (flood_fill_loop img t ml mp fuel s).pixel_coords_x.zip
           (flood_fill_loop img t ml mp fuel s).pixel_coords_y,
        t < lum_z img p.2 p.1 ∧ ml * 0.2 ≤ lum_z img p.2 p.1) ∧
       ((flood_fill_loop img t ml mp fuel s).pixel_count : ℤ) ≤ mp) := by
  intro fuel
  induction fuel with
  | zero => exact fun s hl hp hc => ⟨hl, hp, hc⟩
  | succ n ih =>
    intro s hl hp hc
    rw [flood_fill_loop_succ]
    obtain ⟨a, b, c⟩ := flood_fill_step_accept_inv img t ml mp ht s hl hp hc
    exact ih _ a b c

/-- Pass-level claim-mask invariant: a pixel whose mask entry is true before
some suffix of the per-peak loop stays true afterwards and is accepted by
none of the remaining flood-fill invocations. -/
theorem process_peaks_mask_mono (img : Image) (t : ℚ) (x y : ℤ) :
    ∀ (peaks : List ((ℕ × ℕ) × ℚ)) (m : ℤ → ℤ → Bool), m y x = true →
      ((process_peaks img t peaks m).2 y x = true ∧
       (x, y) ∉ process_accepted img t peaks m) := by
  intro peaks
  induction peaks with
  | nil =>
    intro m hm
    exact ⟨hm, by simp [process_accepted]⟩
  | cons pk rest ih =>
    intro m hm
    unfold process_peaks process_accepted
    by_cases hc : m (pk.1.2 : ℤ) (pk.1.1 : ℤ)
    · rw [if_pos hc, if_pos hc]
      exact ih m hm
    · rw [if_neg hc, if_neg hc]
      have hrun := flood_fill_loop_mask_mono img t (lum_at img pk.1.2 pk.1.1)
        (python_int (1000 + lum_at img pk.1.2 pk.1.1 / 255 * 50000))
        x y (5 * (img.width * img.height) + 1)
        { sum_x := 0, sum_y := 0, sum_lum := 0, sum_r := 0, sum_g := 0, sum_b := 0
          sum_color_weight := 0, pixel_count := 0
          min_x := (pk.1.1 : ℤ), max_x := (pk.1.1 : ℤ)
          min_y := (pk.1.2 : ℤ), max_y := (pk.1.2 : ℤ)
          pixel_coords_x := [], pixel_coords_y := []
          path_min_lum := lum_at img pk.1.2 pk.1.1
          stack := [((pk.1.1 : ℤ), (pk.1.2 : ℤ))]
          checked := m } hm rfl (by simp)
      have hrun1 : (flood_fill_run img t pk.1.1 pk.1.2 m).checked y x = true := hrun.1
      have hrun3 : ∀ p ∈ (flood_fill_run img t pk.1.1 pk.1.2 m).pixel_coords_x.zip
          (flood_fill_run img t pk.1.1 pk.1.2 m).pixel_coords_y, p ≠ (x, y) := hrun.2.2
      obtain ⟨ih1, ih2⟩ := ih _ hrun1
      constructor
      · exact ih1
      · intro hmem
        rcases List.mem_append.mp hmem with hin | hin
        · exact hrun3 _ hin rfl
        · exact ih2 hin

/-- Claim C4: the claim mask is monotone within one detection pass.  First part:
within one flood-fill invocation, a pixel whose mask entry is true keeps it
true through any further looping and is never added to the accepted
coordinates.  Second part: across the per-peak loop of detect_stars, a pixel
whose mask entry is true stays true and is accepted by no later flood-fill
invocation, whether or not the regions are accepted as stars. -/
theorem claim4_claim_mask_invariant (img : Image) (t : ℚ) (x y : ℤ) :
    (∀ (ml : ℚ) (mp : ℤ) (fuel : ℕ) (s : FillState),
        s.checked y x = true →
        s.pixel_coords_x.length = s.pixel_coords_y.length →
        (∀ p ∈ s.pixel_coords_x.zip s.pixel_coords_y, p ≠ (x, y)) →
        ((flood_fill_loop img t ml mp fuel s).checked y x = true ∧
         ∀ p ∈ (flood_fill_loop img t ml mp fuel s).pixel_coords_x.zip
             (flood_fill_loop img t ml mp fuel s).pixel_coords_y, p ≠ (x, y))) ∧
    (∀ (peaks : List ((ℕ × ℕ) × ℚ)) (m : ℤ → ℤ → Bool), m y x = true →
        ((process_peaks img t peaks m).2 y x = true ∧
         (x, y) ∉ process_accepted img t peaks m)) := by
  constructor
  · intro ml mp fuel s h hl hq
    obtain ⟨r1, _, r3⟩ := flood_fill_loop_mask_mono img t ml mp x y fuel s h hl hq
    exact ⟨r1, r3⟩
  · exact process_peaks_mask_mono img t x y

/-- Claim C4 witness: a concrete pass over one peak with the pixel already claimed. -/
theorem claim4_claim_mask_invariant_witness :
    (process_peaks img_empty 140 [((0, 0), (200 : ℚ))] fun _ _ => true).2 0 0 = true ∧
    ((0 : ℤ), (0 : ℤ)) ∉ process_accepted img_empty 140 [((0, 0), (200 : ℚ))] fun _ _ => true :=
  (claim4_claim_mask_invariant img_empty 140 0 0).2 [((0, 0), 200)] (fun _ _ => true) rfl

/-- Claim C5: every pixel accepted by one flood-fill invocation has luminance
strictly above the internal cutoff and at least `max_lum * 0.2` where
`max_lum` is the starting pixel's luminance, and the accepted count never
exceeds `floor(1000 + (max_lum / 255) * 50000)`. -/
theorem claim5_flood_fill_acceptance (img : Image) (t : ℚ) (sx sy : ℕ)
    (m : ℤ → ℤ → Bool) (ht : 0 ≤ t) (hml : 0 ≤ lum_at img sy sx) :
    List.Forall
      (fun p => t < lum_z img p.2 p.1 ∧ lum_at img sy sx * 0.2 ≤ lum_z img p.2 p.1)
      ((flood_fill_run img t sx sy m).pixel_coords_x.zip
        (flood_fill_run img t sx sy m).pixel_coords_y) ∧
    ((flood_fill_run img t sx sy m).pixel_count : ℤ) ≤
      Int.floor ((1000 : ℚ) + lum_at img sy sx / 255 * 50000) := by
  have harg : (0 : ℚ) ≤ 1000 + lum_at img sy sx / 255 * 50000 := by
    have : (0 : ℚ) ≤ lum_at img sy sx / 255 * 50000 := by positivity
    linarith
  have hpi : python_int (1000 + lum_at img sy sx / 255 * 50000) =
      Int.floor ((1000 : ℚ) + lum_at img sy sx / 255 * 50000) := by
    unfold python_int
    rw [if_pos harg]
  have hmp : (0 : ℤ) ≤ python_int (1000 + lum_at img sy sx / 255 * 50000) := by
    rw [hpi]
    exact Int.le_floor.mpr (by exact_mod_cast harg)
  have hinv := flood_fill_loop_accept_inv img t (lum_at img sy sx)
    (python_int (1000 + lum_at img sy sx / 255 * 50000)) ht
    (5 * (img.width * img.height) + 1)
    { sum_x := 0, sum_y := 0, sum_lum := 0, sum_r := 0, sum_g := 0, sum_b := 0
      sum_color_weight := 0, pixel_count := 0
      min_x := (sx : ℤ), max_x := (sx : ℤ)
      min_y := (sy : ℤ), max_y := (sy : ℤ)
      pixel_coords_x := [], pixel_coords_y := []
      path_min_lum := lum_at img sy sx
      stack := [((sx : ℤ), (sy : ℤ))]
      checked := m } rfl (by simp) (by exact_mod_cast hmp)
  constructor
  · rw [List.forall_iff_forall_mem]
    exact hinv.2.1
  · rw [← hpi]
    exact hinv.2.2

/-- A 1×1 gray image of value 200 on each channel. -/
def img_gray200 : Image := ⟨1, 1, 3, fun _ _ _ => 200⟩

/-- Claim C5 witness: a concrete flood fill on a 1×1 image of luminance 200. -/
theorem claim5_flood_fill_acceptance_witness :
    List.Forall
      (fun p => (140 : ℚ) < lum_z img_gray200 p.2 p.1 ∧
        lum_at img_gray200 0 0 * 0.2 ≤ lum_z img_gray200 p.2 p.1)
      ((flood_fill_run img_gray200 140 0 0 fun _ _ => false).pixel_coords_x.zip
        (flood_fill_run img_gray200 140 0 0 fun _ _ => false).pixel_coords_y) ∧
    ((flood_fill_run img_gray200 140 0 0 fun _ _ => false).pixel_count : ℤ) ≤
      Int.floor ((1000 : ℚ) + lum_at img_gray200 0 0 / 255 * 50000) :=
  claim5_flood_fill_acceptance img_gray200 140 0 0 (fun _ _ => false)
    (by norm_num) (by norm_num [lum_at, img_gray200])

/-! Projections of a finalized region, and the origin of output stars. -/

theorem finalize_region_some {ml : ℚ} {s : FillState} {st : Star}
    (h : finalize_region ml s = some st) :
    st.brightness = ml / 255 ∧ st.radius = Real.sqrt ((s.pixel_count : ℝ) / Real.pi) ∧
    s.pixel_count ≠ 0 := by
  unfold finalize_region at h
  by_cases h0 : s.pixel_count = 0
  · rw [if_pos h0] at h; exact absurd h (by simp)
  rw [if_neg h0] at h
  by_cases h1 : shape_eccentric_reject s
  · rw [if_pos h1] at h; exact absurd h (by simp)
  rw [if_neg h1] at h
  by_cases h2 : 5 < ((max (s.max_x - s.min_x + 1) (s.max_y - s.min_y + 1) : ℤ) : ℚ) /
      ((max (min (s.max_x - s.min_x + 1) (s.max_y - s.min_y + 1)) 1 : ℤ) : ℚ)
  · rw [if_pos h2] at h; exact absurd h (by simp)
  rw [if_neg h2] at h
  by_cases h3 : (s.pixel_count : ℚ) /
      ((max ((s.max_x - s.min_x + 1) * (s.max_y - s.min_y + 1)) 1 : ℤ) : ℚ) < 0.10 ∧
      50 < s.pixel_count
  · rw [if_pos h3] at h; exact absurd h (by simp)
  rw [if_neg h3] at h
  rw [Option.some.injEq] at h
  subst h
  exact ⟨rfl, rfl, h0⟩

theorem process_peaks_origin (img : Image) (t : ℚ) :
    ∀ (peaks : List ((ℕ × ℕ) × ℚ)) (m : ℤ → ℤ → Bool) (st : Star),
      st ∈ (process_peaks img t peaks m).1 →
      ∃ pk ∈ peaks, ∃ m2 : ℤ → ℤ → Bool,
        finalize_region (lum_at img pk.1.2 pk.1.1)
          (flood_fill_run img t pk.1.1 pk.1.2 m2) = some st := by
  intro peaks
  induction peaks with
  | nil =>
    intro m st hmem
    exact absurd hmem (by simp [process_peaks])
  | cons pk rest ih =>
    intro m st hmem
    unfold process_peaks at hmem
    by_cases hc : m (pk.1.2 : ℤ) (pk.1.1 : ℤ)
    · rw [if_pos hc] at hmem
      obtain ⟨pk2, hpk2, m2, hm2⟩ := ih m st hmem
      exact ⟨pk2, List.mem_cons_of_mem _ hpk2, m2, hm2⟩
    · rw [if_neg hc] at hmem
      cases hres : (flood_fill_star img pk.1.1 pk.1.2 t m).1 with
      | none =>
        rw [hres] at hmem
        simp only [Option.elim_none] at hmem
        obtain ⟨pk2, hpk2, m2, hm2⟩ := ih _ st hmem
        exact ⟨pk2, List.mem_cons_of_mem _ hpk2, m2, hm2⟩
      | some st0 =>
        rw [hres] at hmem
        simp only [Option.elim_some] at hmem
        rcases List.mem_cons.mp hmem with heq | hmem2
        · subst heq
          exact ⟨pk, List.mem_cons_self _ _, m, hres⟩
        · obtain ⟨pk2, hpk2, m2, hm2⟩ := ih _ st hmem2
          exact ⟨pk2, List.mem_cons_of_mem _ hpk2, m2, hm2⟩

theorem peak_fold_lum (img : Image) (cells : List (ℕ × ℕ)) :
    ∀ b : ℕ × ℕ × ℚ, b.2.2 = lum_at img b.2.1 b.1 →
      (cells.foldl
        (fun b c => if b.2.2 < lum_at img c.2 c.1 then (c.1, c.2, lum_at img c.2 c.1) else b)
        b).2.2 =
      lum_at img
        (cells.foldl
          (fun b c => if b.2.2 < lum_at img c.2 c.1 then (c.1, c.2, lum_at img c.2 c.1) else b)
          b).2.1
        (cells.foldl
          (fun b c => if b.2.2 < lum_at img c.2 c.1 then (c.1, c.2, lum_at img c.2 c.1) else b)
          b).1 := by
  induction cells with
  | nil => exact fun b hb => hb
  | cons c cs ih =>
    intro b hb
    rw [List.foldl_cons]
    by_cases hlt : b.2.2 < lum_at img c.2 c.1
    · rw [if_pos hlt]
      exact ih _ rfl
    · rw [if_neg hlt]
      exact ih _ hb

theorem peak_step_lum (img : Image) (st : ℕ × ℕ × ℚ)
    (h : st.2.2 = lum_at img st.2.1 st.1) :
    (peak_step img st).2.2 = lum_at img (peak_step img st).2.1 (peak_step img st).1 := by
  rw [peak_step]
  by_cases hlt : st.2.2 < (peak_best img st.1 st.2.1 st.2.2).2.2
  · rw [if_pos hlt]
    exact peak_fold_lum img (peak_window img st.1 st.2.1) (st.1, st.2.1, st.2.2)
      (by exact h)
  · rw [if_neg hlt]
    exact h

theorem find_local_peak_lum (img : Image) :
    ∀ (fuel : ℕ) (st : ℕ × ℕ × ℚ), st.2.2 = lum_at img st.2.1 st.1 →
      (find_local_peak img fuel st).2.2 =
        lum_at img (find_local_peak img fuel st).2.1 (find_local_peak img fuel st).1 := by
  intro fuel
  induction fuel with
  | zero => exact fun st h => h
  | succ n ih =>
    intro st h
    have hs : find_local_peak img (n + 1) st = find_local_peak img n (peak_step img st) := by
      unfold find_local_peak
      exact Function.iterate_succ_apply _ _ _
    rw [hs]
    exact ih _ (peak_step_lum img st h)

theorem upsert_peak_forall {P : (ℕ × ℕ) × ℚ → Prop} {l : List ((ℕ × ℕ) × ℚ)}
    {k : ℕ × ℕ} {v : ℚ} (hl : ∀ e ∈ l, P e) (hkv : P (k, v)) :
    ∀ e ∈ upsert_peak l k v, P e := by
  unfold upsert_peak
  by_cases hc : l.any fun e => decide (e.1 = k)
  · rw [if_pos hc]
    intro e he
    rcases List.mem_map.mp he with ⟨e0, he0, rfl⟩
    by_cases hek : e0.1 = k
    · rw [if_pos hek]; exact hkv
    · rw [if_neg hek]; exact hl e0 he0
  · rw [if_neg hc]
    intro e he
    rcases List.mem_append.mp he with hm | hm
    · exact hl e hm
    · rw [List.mem_singleton] at hm; subst hm; exact hkv

/-- Every entry of the peak table built by the candidate scan has a value
above the cutoff that is the luminance at its key coordinate. -/
theorem peaks_fold_inv (img : Image) (t : ℚ) (cands : List (ℕ × ℕ)) :
    ∀ acc : List ((ℕ × ℕ) × ℚ),
      (∀ e ∈ acc, t < e.2 ∧ e.2 = lum_at img e.1.2 e.1.1) →
      ∀ e ∈ cands.foldl
        (fun acc c =>
          if t < (find_local_peak img 20 (c.1, c.2, lum_at img c.2 c.1)).2.2 then
            upsert_peak acc
              ((find_local_peak img 20 (c.1, c.2, lum_at img c.2 c.1)).1,
               (find_local_peak img 20 (c.1, c.2, lum_at img c.2 c.1)).2.1)
              (find_local_peak img 20 (c.1, c.2, lum_at img c.2 c.1)).2.2
          else acc) acc,
        t < e.2 ∧ e.2 = lum_at img e.1.2 e.1.1 := by
  induction cands with
  | nil => exact fun acc hacc => hacc
  | cons c cs ih =>
    intro acc hacc
    rw [List.foldl_cons]
    generalize hg : find_local_peak img 20 (c.1, c.2, lum_at img c.2 c.1) = p
    have hp : p.2.2 = lum_at img p.2.1 p.1 := by
      rw [← hg]
      exact find_local_peak_lum img 20 (c.1, c.2, lum_at img c.2 c.1) rfl
    by_cases hlt : t < p.2.2
    · rw [if_pos hlt]
      exact ih _ (upsert_peak_forall hacc ⟨hlt, hp⟩)
    · rw [if_neg hlt]
      exact ih _ hacc

theorem merge_loop_mem : ∀ (l acc : List Star) (st : Star),
    st ∈ merge_loop l acc → st ∈ acc ∨ st ∈ l := by
  intro l
  induction l with
  | nil =>
    intro acc st h
    exact Or.inl (by simpa [merge_loop] using h)
  | cons star rest ih =>
    intro acc st h
    unfold merge_loop at h
    by_cases hc : ∃ e ∈ acc, should_merge star e
    · rw [if_pos hc] at h
      rcases ih acc st h with h1 | h1
      · exact Or.inl h1
      · exact Or.inr (List.mem_cons_of_mem _ h1)
    · rw [if_neg hc] at h
      rcases ih _ st h with h1 | h1
      · rcases List.mem_append.mp h1 with h2 | h2
        · exact Or.inl h2
        · rw [List.mem_singleton] at h2
          exact Or.inr (h2 ▸ List.mem_cons_self _ _)
      · exact Or.inr (List.mem_cons_of_mem _ h1)

/-- Every star of the output of detect_stars is a halo-recolored region
grown from some peak whose luminance exceeds the internal cutoff. -/
theorem detect_stars_origin (img : Image) (t : ℤ) (stars : List Star)
    (hok : detect_stars img t = Except.ok stars) :
    ∀ st ∈ stars, ∃ (st0 : Star) (px py : ℕ) (m2 : ℤ → ℤ → Bool),
      finalize_region (lum_at img py px)
        (flood_fill_run img (map_threshold_to_internal t) px py m2) = some st0 ∧
      st = {st0 with color := sample_halo_color img st0} ∧
      map_threshold_to_internal t < lum_at img py px := by
  unfold detect_stars at hok
  by_cases hch : img.channels < 3
  · rw [if_pos hch] at hok; exact absurd hok (by simp)
  rw [if_neg hch] at hok
  simp only [Except.ok.injEq] at hok
  subst hok
  intro st hmem
  have hmem2 := mem_sort_desc_by hmem
  rcases List.mem_map.mp hmem2 with ⟨st0, hst0, rfl⟩
  rcases merge_loop_mem _ _ _ hst0 with h1 | h1
  · exact absurd h1 (List.not_mem_nil _)
  have hraw := mem_sort_desc_by h1
  obtain ⟨pk, hpk, m2, hm2⟩ := process_peaks_origin img _ _ _ _ hraw
  have hpk2 := mem_sort_desc_by hpk
  have hinv := peaks_fold_inv img (map_threshold_to_internal t) _ [] (by simp) pk hpk2
  exact ⟨st0, pk.1.1, pk.1.2, m2, hm2, rfl, hinv.2 ▸ hinv.1⟩

/-! Bounds used by the output-record invariant. -/

theorem lum_at_bounds (img : Image)
    (hdata : ∀ y x c, 0 ≤ img.data y x c ∧ img.data y x c ≤ 255) (y x : ℕ) :
    0 ≤ lum_at img y x ∧ lum_at img y x ≤ 255 := by
  obtain ⟨a0, a1⟩ := hdata y x 0
  obtain ⟨b0, b1⟩ := hdata y x 1
  obtain ⟨c0, c1⟩ := hdata y x 2
  unfold lum_at
  constructor <;> nlinarith

theorem list_sum_bound {α : Type} (l : List α) (f : α → ℚ)
    (hf : ∀ p ∈ l, 0 ≤ f p ∧ f p ≤ 255) :
    0 ≤ (l.map f).sum ∧ (l.map f).sum ≤ 255 * (l.length : ℚ) := by
  induction l with
  | nil => simp
  | cons x xs ih =>
    obtain ⟨hx1, hx2⟩ := hf x (by simp)
    obtain ⟨ih1, ih2⟩ := ih fun p hp => hf p (by simp [hp])
    constructor
    · simp only [List.map_cons, List.sum_cons]
      linarith
    · simp only [List.map_cons, List.sum_cons, List.length_cons]
      push_cast
      linarith

theorem sample_halo_color_bounds (img : Image) (star : Star)
    (hdata : ∀ y x c, 0 ≤ img.data y x c ∧ img.data y x c ≤ 255) :
    (0 ≤ (sample_halo_color img star).r ∧ (sample_halo_color img star).r ≤ 255) ∧
    (0 ≤ (sample_halo_color img star).g ∧ (sample_halo_color img star).g ≤ 255) ∧
    (0 ≤ (sample_halo_color img star).b ∧ (sample_halo_color img star).b ≤ 255) := by
  unfold sample_halo_color
  rw [halo_fold]
  simp only [zero_add]
  by_cases h : (halo_pts img star (List.range 24)).length = 0
  · rw [if_pos h]
    norm_num
  · rw [if_neg h]
    have hlen : (0 : ℚ) < ((halo_pts img star (List.range 24)).length : ℚ) := by
      exact_mod_cast Nat.pos_of_ne_zero h
    have hb0 := list_sum_bound (halo_pts img star (List.range 24))
      (fun p => img.data p.2.toNat p.1.toNat 0) (fun p _ => hdata p.2.toNat p.1.toNat 0)
    have hb1 := list_sum_bound (halo_pts img star (List.range 24))
      (fun p => img.data p.2.toNat p.1.toNat 1) (fun p _ => hdata p.2.toNat p.1.toNat 1)
    have hb2 := list_sum_bound (halo_pts img star (List.range 24))
      (fun p => img.data p.2.toNat p.1.toNat 2) (fun p _ => hdata p.2.toNat p.1.toNat 2)
    refine ⟨⟨div_nonneg hb0.1 (le_of_lt hlen), ?_⟩,
            ⟨div_nonneg hb1.1 (le_of_lt hlen), ?_⟩,
            ⟨div_nonneg hb2.1 (le_of_lt hlen), ?_⟩⟩
    · rw [div_le_iff₀ hlen]; exact hb0.2
    · rw [div_le_iff₀ hlen]; exact hb1.2
    · rw [div_le_iff₀ hlen]; exact hb2.2

/-- Claim C2 amended: the brightness of a star finalized by one flood-fill
invocation equals the luminance of the starting pixel divided by 255
(`max_lum` is fixed at the start pixel and never updated during the
traversal), not the maximum luminance over all accepted pixels. -/
theorem claim2_brightness_amended (img : Image) (sx sy : ℕ) (t : ℚ)
    (m : ℤ → ℤ → Bool) (st : Star)
    (h : (flood_fill_star img sx sy t m).1 = some st) :
    st.brightness = lum_at img sy sx / 255 :=
  (finalize_region_some h).1

/-- Claim C10: every output star's brightness times 255 strictly exceeds the
internal cutoff, and in particular the brightness always strictly exceeds
140/255. -/
theorem claim10_brightness_above_cutoff (img : Image) (t : ℤ) (stars : List Star)
    (hdata : ∀ y x c, 0 ≤ img.data y x c ∧ img.data y x c ≤ 255)
    (ht1 : 1 ≤ t) (ht2 : t ≤ 100)
    (hok : detect_stars img t = Except.ok stars) :
    List.Forall (fun st => map_threshold_to_internal t < st.brightness * 255 ∧
      (140 : ℚ) / 255 < st.brightness) stars := by
  rw [List.forall_iff_forall_mem]
  intro st hmem
  obtain ⟨st0, px, py, m2, hfin, hst, hlt⟩ := detect_stars_origin img t stars hok st hmem
  have hbr : st.brightness = lum_at img py px / 255 := by
    rw [hst]
    exact (finalize_region_some hfin).1
  have hm140 : 140 ≤ map_threshold_to_internal t := by
    have he : map_threshold_to_internal t = 140 + ((t : ℚ) - 1) * (100 / 99) := by
      unfold map_threshold_to_internal; ring
    have hc : (1 : ℚ) ≤ (t : ℚ) := by exact_mod_cast ht1
    have h0 : (0 : ℚ) ≤ ((t : ℚ) - 1) * (100 / 99) :=
      mul_nonneg (by linarith) (by norm_num)
    linarith [he]
  constructor
  · rw [hbr, div_mul_eq_mul_div, mul_div_assoc]
    norm_num
    exact hlt
  · rw [hbr]
    exact (div_lt_div_right (by norm_num)).mpr (lt_of_le_of_lt hm140 hlt)

/-- Claim C10 witness at a concrete image. -/
theorem claim10_brightness_above_cutoff_witness :
    List.Forall (fun st => map_threshold_to_internal 50 < st.brightness * 255 ∧
      (140 : ℚ) / 255 < st.brightness) ([] : List Star) :=
  claim10_brightness_above_cutoff img_empty 50 []
    (fun _ _ _ => by norm_num [img_empty]) (by norm_num) (by norm_num)
    detect_stars_img_empty

/-- Claim C6: on an image with channel values in [0, 255] and a sensitivity in
[1, 100], every output star has positive radius, brightness in [0, 1] and
color channels in [0, 255]. -/
theorem claim6_output_invariant (img : Image) (t : ℤ) (stars : List Star)
    (hdata : ∀ y x c, 0 ≤ img.data y x c ∧ img.data y x c ≤ 255)
    (ht1 : 1 ≤ t) (ht2 : t ≤ 100)
    (hok : detect_stars img t = Except.ok stars) :
    List.Forall (fun st : Star => 0 < st.radius ∧
      0 ≤ st.brightness ∧ st.brightness ≤ 1 ∧
      0 ≤ st.color.r ∧ st.color.r ≤ 255 ∧
      0 ≤ st.color.g ∧ st.color.g ≤ 255 ∧
      0 ≤ st.color.b ∧ st.color.b ≤ 255) stars := by
  rw [List.forall_iff_forall_mem]
  intro st hmem
  obtain ⟨st0, px, py, m2, hfin, hst, _⟩ := detect_stars_origin img t stars hok st hmem
  obtain ⟨hb, hr, hcnt⟩ := finalize_region_some hfin
  obtain ⟨hl0, hl1⟩ := lum_at_bounds img hdata py px
  have hrad : 0 < st.radius := by
    have he : st.radius = st0.radius := by rw [hst]
    rw [he, hr]
    apply Real.sqrt_pos.mpr
    apply div_pos _ Real.pi_pos
    exact_mod_cast Nat.pos_of_ne_zero hcnt
  have hbr : st.brightness = lum_at img py px / 255 := by
    rw [hst]; exact hb
  have hcol : st.color = sample_halo_color img st0 := by rw [hst]
  obtain ⟨⟨c1, c2⟩, ⟨c3, c4⟩, ⟨c5, c6⟩⟩ := sample_halo_color_bounds img st0 hdata
  refine ⟨hrad, ?_, ?_, ?_, ?_, ?_, ?_, ?_, ?_⟩
  · rw [hbr]; positivity
  · rw [hbr]
    rw [div_le_one (by norm_num)]
    linarith
  · rw [hcol]; exact c1
  · rw [hcol]; exact c2
  · rw [hcol]; exact c3
  · rw [hcol]; exact c4
  · rw [hcol]; exact c5
  · rw [hcol]; exact c6

/-- Claim C6 witness at a concrete image. -/
theorem claim6_output_invariant_witness :
    List.Forall (fun st : Star => 0 < st.radius ∧
      0 ≤ st.brightness ∧ st.brightness ≤ 1 ∧
      0 ≤ st.color.r ∧ st.color.r ≤ 255 ∧
      0 ≤ st.color.g ∧ st.color.g ≤ 255 ∧
      0 ≤ st.color.b ∧ st.color.b ≤ 255) ([] : List Star) :=
  claim6_output_invariant img_empty 50 []
    (fun _ _ _ => by norm_num [img_empty]) (by norm_num) (by norm_num)
    detect_stars_img_empty

/-! C2: the concrete counterexample.  A 1×3 gray image whose pixels have
luminances 200, 200, 225 left to right.  The stride-4 scan seeds at
(0, 0); the hill climb stays there because the 3×3 window maximum 200
does not strictly exceed the current cell, so the single flood fill of
the pass starts at luminance 200; the 225 pixel two steps away is then
accepted (225 is below the valley bound 200 + max(10, 200·0.15) = 230 and
above the cutoff 140), yet the star's brightness stays 200/255. -/

/-- 1×3 three-channel gray image with values 200, 200, 225 left to right. -/
def img_c2d : Image :=
  ⟨1, 3, 3, fun y x _ =>
    if y = 0 ∧ x = 0 then 200 else if y = 0 ∧ x = 1 then 200
    else if y = 0 ∧ x = 2 then 225 else 0⟩

/-- The star that the flood fill finalizes on `img_c2d`:
centroid x = (0·200 + 1·200 + 2·225)/625 = 26/25, brightness
200/255 = 40/51, radius √(3/π), and weighted core color
(200·(40/51)·2 + 225·(45/51)) / (125/51) = 209 per channel. -/
noncomputable def star_c2d : Star :=
  ⟨26 / 25, 0, 40 / 51, Real.sqrt (3 / Real.pi), ⟨209, 209, 209⟩⟩

theorem img_c2d_lum00 : lum_at img_c2d 0 0 = 200 := by norm_num [lum_at, img_c2d]

theorem img_c2d_thr : map_threshold_to_internal 1 = 140 := by
  norm_num [map_threshold_to_internal]

theorem mask_set_apply (m : ℤ → ℤ → Bool) (y x y0 x0 : ℤ) :
    mask_set m y x y0 x0 = if y0 = y ∧ x0 = x then true else m y0 x0 := rfl

theorem int_toNat_two : Int.toNat 2 = 2 := rfl

theorem img_c2d_max_pixels :
    python_int (1000 + lum_at img_c2d 0 0 / 255 * 50000) = 40215 := by
  norm_num [python_int, lum_at, img_c2d, Int.floor_eq_iff]

set_option maxHeartbeats 1600000 in
theorem img_c2d_run_eval :
    flood_fill_run img_c2d 140 0 0 (fun _ _ => false) =
      { sum_x := 650, sum_y := 0, sum_lum := 625, sum_r := 26125 / 51,
        sum_g := 26125 / 51, sum_b := 26125 / 51, sum_color_weight := 125 / 51,
        pixel_count := 3, min_x := 0, max_x := 2, min_y := 0, max_y := 0,
        pixel_coords_x := [0, 1, 2], pixel_coords_y := [0, 0, 0],
        path_min_lum := 200, stack := [],
        checked := mask_set (mask_set (mask_set (fun _ _ => false) 0 0) 0 1) 0 2 } := by
  show flood_fill_loop img_c2d 140 (lum_at img_c2d 0 0)
      (python_int (1000 + lum_at img_c2d 0 0 / 255 * 50000)) 16
      { sum_x := 0, sum_y := 0, sum_lum := 0, sum_r := 0, sum_g := 0, sum_b := 0
        sum_color_weight := 0, pixel_count := 0
        min_x := 0, max_x := 0, min_y := 0, max_y := 0
        pixel_coords_x := [], pixel_coords_y := []
        path_min_lum := lum_at img_c2d 0 0
        stack := [(0, 0)]
        checked := fun _ _ => false } = _
  rw [img_c2d_max_pixels, img_c2d_lum00]
  norm_num [flood_fill_loop, Function.iterate_succ_apply, Function.iterate_zero_apply,
    flood_fill_step, img_c2d, lum_at, lum_z, mask_set_apply, int_toNat_two]

set_option maxHeartbeats 800000 in
theorem img_c2d_star_eval :
    (flood_fill_star img_c2d 0 0 140 fun _ _ => false).1 = some star_c2d := by
  show finalize_region (lum_at img_c2d 0 0)
      (flood_fill_run img_c2d 140 0 0 fun _ _ => false) = some star_c2d
  rw [img_c2d_lum00, img_c2d_run_eval]
  norm_num [finalize_region, shape_eccentric_reject, star_c2d, Star.mk.injEq,
    Color.mk.injEq]

theorem img_c2d_height : img_c2d.height = 1 := rfl

theorem img_c2d_width : img_c2d.width = 3 := rfl

theorem img_c2d_channels : img_c2d.channels = 3 := rfl

theorem img_c2d_peak_step : peak_step img_c2d (0, 0, 200) = (0, 0, 200) := by
  norm_num [peak_step, peak_best, peak_window, lum_at, img_c2d, List.range_succ]

theorem img_c2d_peak : find_local_peak img_c2d 20 (0, 0, 200) = (0, 0, 200) :=
  Function.iterate_fixed img_c2d_peak_step 20

set_option maxHeartbeats 1600000 in
set_option maxRecDepth 8000 in
/-- Claim C2 counterexample, reachable through the whole pipeline: on
`img_c2d` at sensitivity 1, detect_stars returns exactly one star, of
brightness 200/255, although the single flood-fill invocation of that run
(from peak (0, 0) with the fresh mask and the internal cutoff of
sensitivity 1) accepted the pixels of luminances 200, 200 and 225: the
maximum luminance seen over the accepted pixels is 225, and
200/255 ≠ 225/255, so the brightness is not the maximum luminance seen
during the traversal divided by 255. -/
theorem claim2_brightness_counterexample :
    (detect_stars img_c2d 1).map (fun l => l.map Star.brightness) =
      Except.ok [200 / 255] ∧
    ((flood_fill_run img_c2d (map_threshold_to_internal 1) 0 0
        fun _ _ => false).pixel_coords_x.zip
      (flood_fill_run img_c2d (map_threshold_to_internal 1) 0 0
        fun _ _ => false).pixel_coords_y).map
      (fun p => lum_z img_c2d p.2 p.1) = [200, 200, 225] ∧
    max (max (200 : ℚ) 200) 225 = 225 ∧
    ¬ ((200 : ℚ) / 255 = 225 / 255) := by
  refine ⟨?_, ?_, by norm_num, by norm_num⟩
  · norm_num [detect_stars, map_threshold_to_internal, img_c2d_height, img_c2d_width,
      img_c2d_channels, img_c2d_lum00, img_c2d_peak,
      upsert_peak, insert_desc_by, sort_desc_by, process_peaks,
      img_c2d_star_eval, merge_loop, star_c2d, List.range_succ, Except.map]
  · rw [img_c2d_thr, img_c2d_run_eval]
    norm_num [lum_z, lum_at, img_c2d, int_toNat_two]

/-- Claim C2 witness for the amended claim, at the concrete image `img_c2d`. -/
theorem claim2_brightness_amended_witness :
    star_c2d.brightness = lum_at img_c2d 0 0 / 255 :=
  claim2_brightness_amended img_c2d 0 0 140 (fun _ _ => false) star_c2d img_c2d_star_eval

end AstroSpike
